import Mathlib

/-!
Shallow embedding of the flux-encoder core (Go) into Lean 4, together with
theorems settling the frozen claims about the natural-language specification.

Each definition below is translated from a concrete Go function of the
repository; the source file and function are named in the doc comment.
-/

namespace FluxEncoder

/-! ### Balancer (src/internal/controlplane/balancer/balancer.go) -/

/-- Worker status as observed by a probe (proto WorkerStatus, the two fields
the Balancer reads). Go int32 values are modelled as Int. -/
structure WorkerStatus where
  currentJobs : Int
  maxConcurrentJobs : Int
  deriving DecidableEq, Repr

/-- Outcome of one probe of a worker: `getWorkerStatus` either fails
(connect or RPC error, timeout) or returns a status. -/
inductive ProbeResult where
  | failure
  | success (st : WorkerStatus)
  deriving DecidableEq, Repr

/-- Balancer state: the static worker list and the round-robin cursor
(`lastWorkerIndex`, initialized to -1 by `New`). -/
structure Balancer where
  workers : List String
  lastWorkerIndex : Int
  deriving DecidableEq, Repr

/-- `balancer.New(workers, timeout)`: initializes the cursor to -1. -/
def Balancer.new (workers : List String) : Balancer :=
  { workers := workers, lastWorkerIndex := -1 }

/-- Result of a `SelectWorker` call. Go has no checked exceptions: the
`% len(b.workers)` on an empty list is a runtime division-by-zero panic,
modelled as a distinct outcome. -/
inductive SelectOutcome where
  | panicDivZero
  | noAvailableWorkers
  | selected (worker : String) (idx : Nat)
  deriving DecidableEq, Repr

/-- The loop body of `SelectWorker` (balancer.go lines 40-74): iterate
`i = 0 .. n-1`, probe worker `(startIdx + i) % n`; on probe failure continue;
on success with spare capacity commit the cursor and return the worker;
otherwise continue. The probe oracle is indexed by the worker index. -/
def selectScan (b : Balancer) (probe : Nat → ProbeResult) (startIdx : Nat) :
    List Nat → SelectOutcome × Balancer
  | [] => (SelectOutcome.noAvailableWorkers, b)
  | i :: rest =>
    match probe ((startIdx + i) % b.workers.length) with
    | ProbeResult.failure => selectScan b probe startIdx rest
    | ProbeResult.success st =>
      if st.currentJobs < st.maxConcurrentJobs then
        (SelectOutcome.selected
           (b.workers.getD ((startIdx + i) % b.workers.length) "")
           ((startIdx + i) % b.workers.length),
         { b with lastWorkerIndex := ((startIdx + i) % b.workers.length : Int) })
      else
        selectScan b probe startIdx rest

/-- `(*Balancer).SelectWorker` (balancer.go lines 34-77).
`startIdx := (b.lastWorkerIndex + 1) % len(b.workers)` panics in Go when the
worker list is empty (integer division by zero); Go's `%` is truncated
remainder, `Int.tmod` here. -/
def selectWorker (b : Balancer) (probe : Nat → ProbeResult) :
    SelectOutcome × Balancer :=
  if b.workers.length = 0 then
    (SelectOutcome.panicDivZero, b)
  else
    let startIdx := ((b.lastWorkerIndex + 1).tmod (b.workers.length : Int)).toNat
    selectScan b probe startIdx (List.range b.workers.length)

/-- A probe result that `SelectWorker` rejects: either the probe failed, or
the worker reported no spare capacity. -/
def probeRejected : ProbeResult → Prop
  | ProbeResult.failure => True
  | ProbeResult.success st => ¬ st.currentJobs < st.maxConcurrentJobs

/-! ### Encoder progress parsing
(src/internal/worker/encoder: `readFFmpegProgress`, `parseProgress`) -/

/-- Decimal value of a digit run, as computed by `strconv.ParseFloat` on a
string of digits (exact for the magnitudes at hand, modelled exactly). -/
def parseNatDigits (ds : List Char) : Nat :=
  ds.foldl (fun acc c => acc * 10 + (c.toNat - 48)) 0

/-- Match a literal at the head of the input, returning the remainder. -/
def matchLit : List Char → List Char → Option (List Char)
  | [], rest => some rest
  | _ :: _, [] => none
  | l :: ls, c :: cs => if c = l then matchLit ls cs else none

/-- Leftmost match of the regex `lit(\d+)` over a line: scan positions left
to right, at each position require the literal followed by at least one
digit, and capture the maximal digit run. Models
`regexp.MustCompile("out_time_ms=(\\d+)").FindStringSubmatch`. -/
def findNumberAfter (lit : List Char) : List Char → Option Nat
  | [] => none
  | c :: cs =>
    match matchLit lit (c :: cs) with
    | some rest =>
      if (rest.takeWhile Char.isDigit).isEmpty then findNumberAfter lit cs
      else some (parseNatDigits (rest.takeWhile Char.isDigit))
    | none => findNumberAfter lit cs

/-- Whitespace class of Go's regexp `\s`: `[\t\n\f\r ]`. -/
def goSpace (c : Char) : Bool :=
  c = ' ' || c = '\t' || c = '\n' || c = '\r' || c.toNat = 12

/-- Leftmost match of the regex `lit\s*(\d+)`: as `findNumberAfter` but with
optional whitespace between the literal and the digits. Models
`regexp.MustCompile("frame=\\s*(\\d+)").FindStringSubmatch`. -/
def findNumberAfterSpaces (lit : List Char) : List Char → Option Nat
  | [] => none
  | c :: cs =>
    match matchLit lit (c :: cs) with
    | some rest =>
      if ((rest.dropWhile goSpace).takeWhile Char.isDigit).isEmpty then
        findNumberAfterSpaces lit cs
      else some (parseNatDigits ((rest.dropWhile goSpace).takeWhile Char.isDigit))
    | none => findNumberAfterSpaces lit cs

/-- The literal of the progress regex `out_time_ms=(\d+)`. -/
def outTimeLit : List Char := "out_time_ms=".toList

/-- The literal of the frame regex `frame=\s*(\d+)`. -/
def frameLit : List Char := "frame=".toList

/-- `parseProgress` (encoder.go, lines 571-590): when the probed duration is
positive and the line contains `out_time_ms=<digits>`, the percentage is
`(micros / 1e6) / duration * 100`, clamped to 100 when it exceeds 100.
Floating-point arithmetic is modelled by exact rational arithmetic; the
clamp is applied after all arithmetic, exactly as in the source. -/
def parseProgress (duration : ℚ) (line : List Char) : Option ℚ :=
  if duration ≤ 0 then none
  else
    match findNumberAfter outTimeLit line with
    | none => none
    | some n =>
      if ((n : ℚ) / 1000000) / duration * 100 > 100 then some 100
      else some (((n : ℚ) / 1000000) / duration * 100)

/-- One invocation of the `ProgressCallback` inside `readFFmpegProgress`:
either `callback(0, "Encoding frame N")` for a `frame=` match, or
`callback(progress, "Encoding: …")` for an `out_time_ms=` match. -/
inductive CallbackEvent where
  | frameMsg (n : Nat)
  | progressMsg (p : ℚ)
  deriving DecidableEq, Repr

/-- The callback invocation produced by the `frame=` regex on a line
(encoder.go lines 544-546). -/
def frameEvents (line : List Char) : List CallbackEvent :=
  match findNumberAfterSpaces frameLit line with
  | some n => [CallbackEvent.frameMsg n]
  | none => []

/-- The scanner loop of `readFFmpegProgress` (encoder.go lines 528-569),
reading stderr line by line while carrying `lastLoggedProgress` (initially
-10). Per line: a `frame=` match fires the callback with progress 0; a
parsable `out_time_ms=` token fires the callback with the parsed
percentage unconditionally, and additionally appends a log record when
`progress - lastLoggedProgress >= 10 || progress >= 100` (updating
`lastLoggedProgress`). Returns the callback invocations and the logged
percentages. -/
def readProgressLoop (duration : ℚ) :
    List (List Char) → ℚ → List CallbackEvent × List ℚ
  | [], _ => ([], [])
  | line :: rest, lastLogged =>
    match parseProgress duration line with
    | none =>
      (frameEvents line ++ (readProgressLoop duration rest lastLogged).1,
       (readProgressLoop duration rest lastLogged).2)
    | some p =>
      if p - lastLogged ≥ 10 ∨ p ≥ 100 then
        (frameEvents line ++ CallbackEvent.progressMsg p ::
           (readProgressLoop duration rest p).1,
         p :: (readProgressLoop duration rest p).2)
      else
        (frameEvents line ++ CallbackEvent.progressMsg p ::
           (readProgressLoop duration rest lastLogged).1,
         (readProgressLoop duration rest lastLogged).2)

/-- `readFFmpegProgress` (encoder.go lines 528-569) on a full stderr line
sequence: `lastLoggedProgress` starts at -10. -/
def readFFmpegProgress (duration : ℚ) (lines : List (List Char)) :
    List CallbackEvent × List ℚ :=
  readProgressLoop duration lines (-10)

/-- The percentages of the PROCESSING percentage events among a sequence of
callback invocations (frame-count messages carry no percentage). -/
def progressEvents (evs : List CallbackEvent) : List ℚ :=
  evs.filterMap fun e =>
    match e with
    | CallbackEvent.progressMsg p => some p
    | CallbackEvent.frameMsg _ => none

/-- The throttling property asserted by the specification sentence of claim
C1, on a sequence of emitted percentages: each percentage exceeds its
predecessor by at least 10 points, or has reached 100. -/
def throttleOk : List ℚ → Bool
  | p1 :: p2 :: rest =>
    (decide (p2 - p1 ≥ 10) || decide (p2 ≥ 100)) && throttleOk (p2 :: rest)
  | _ => true

/-- Throttling relative to an explicit previous emitted value (the
`lastLoggedProgress` the loop carries). -/
def throttleFrom (last : ℚ) : List ℚ → Bool
  | [] => true
  | p :: rest => (decide (p - last ≥ 10) || decide (p ≥ 100)) && throttleFrom p rest

/-! ### Executor job submission trace
(src/unnamed/part_011, `(*Server).SubmitJob`) -/

/-- Proto `JobStatus` values used by the Executor. -/
inductive JobStatus where
  | queued
  | processing
  | uploading
  | completed
  | failed
  deriving DecidableEq, Repr

/-- A `JobProgress` stream element, restricted to the fields the claims
are about. Progress (a proto float) is modelled as a rational. -/
structure JobProgress where
  status : JobStatus
  progress : ℚ
  deriving DecidableEq, Repr

/-- Outcome of `encoder.Encode` as far as the event trace is concerned. -/
inductive EncodeOutcome where
  | ok
  | errored
  deriving DecidableEq, Repr

/-- Outcome of `os.Stat(outputPath)` in `SubmitJob`. -/
inductive StatOutcome where
  | isDir
  | isFile
  | statErr
  deriving DecidableEq, Repr

/-- Outcome of the upload call in `SubmitJob`. -/
inductive UploadOutcome where
  | ok
  | errored
  deriving DecidableEq, Repr

/-- The progress value each callback invocation carries on the stream: the
frame-count message is sent with `callback(0, …)`, the percentage message
with the parsed percentage (part_011 lines 142-157). -/
def callbackProgress : CallbackEvent → ℚ
  | CallbackEvent.frameMsg _ => 0
  | CallbackEvent.progressMsg p => p

/-- The PROCESSING events the Encode callback sends on the stream for a run
whose ffmpeg stderr is `lines` against probed duration `duration`. -/
def encodeCallbackEvents (duration : ℚ) (lines : List (List Char)) :
    List JobProgress :=
  (readFFmpegProgress duration lines).1.map fun e =>
    { status := JobStatus.processing, progress := callbackProgress e }

/-- The full sequence of `JobProgress` events `SubmitJob` sends on a job's
stream (part_011 lines 62-244), parameterized by the observed outcomes of
its effectful steps: the capacity check (`current >= maxConcurrent` fails
the RPC before any event), the QUEUED and PROCESSING sends, the per-line
encode callbacks, then on encode error a FAILED(0); otherwise
UPLOADING(100), then FAILED(100) on stat error or upload error, or
COMPLETED(100). -/
def submitJobEvents (current maxConcurrent : Int) (duration : ℚ)
    (stderrLines : List (List Char)) (encodeRes : EncodeOutcome)
    (statRes : StatOutcome) (uploadRes : UploadOutcome) : List JobProgress :=
  if current ≥ maxConcurrent then []
  else
    { status := JobStatus.queued, progress := 0 } ::
    { status := JobStatus.processing, progress := 0 } ::
      (encodeCallbackEvents duration stderrLines ++
        match encodeRes with
        | EncodeOutcome.errored => [{ status := JobStatus.failed, progress := 0 }]
        | EncodeOutcome.ok =>
          { status := JobStatus.uploading, progress := 100 } ::
            match statRes with
            | StatOutcome.statErr => [{ status := JobStatus.failed, progress := 100 }]
            | _ =>
              match uploadRes with
              | UploadOutcome.errored => [{ status := JobStatus.failed, progress := 100 }]
              | UploadOutcome.ok => [{ status := JobStatus.completed, progress := 100 }])

/-! ### Executor retirement
(src/unnamed/part_011, the deferred block of `SubmitJob`, lines 86-112) -/

/-- Executor-local state observed by status probes: the atomic
`activeJobs` counter, the `activeJobIDs` table (keys only; the cancel
functions are irrelevant here), and the set of job working directories
that currently exist under the work root. -/
structure WorkerState where
  activeJobs : Int
  activeJobIDs : List String
  jobDirs : List String
  deriving DecidableEq, Repr

/-- The individual steps of the deferred retirement block. -/
inductive RetireAction where
  | decrementCounter
  | removeTableEntry
  | cleanupWorkDir
  | evalShutdown
  deriving DecidableEq, Repr

/-- The deferred retirement block of `SubmitJob`, in source order:
`atomic.AddInt32(&s.activeJobs, -1)` (line 88), `delete(s.activeJobIDs, jobId)`
(line 91), `s.encoder.Cleanup(jobId)` which runs `os.RemoveAll(jobDir)`
(line 95, encoder.go lines 711-714), then the auto-shutdown evaluation
(lines 103-111). -/
def retirementSequence : List RetireAction :=
  [RetireAction.decrementCounter, RetireAction.removeTableEntry,
   RetireAction.cleanupWorkDir, RetireAction.evalShutdown]

/-- Effect of one retirement step on the observable Executor state. -/
def applyRetireAction (jobId : String) (s : WorkerState) :
    RetireAction → WorkerState
  | RetireAction.decrementCounter => { s with activeJobs := s.activeJobs - 1 }
  | RetireAction.removeTableEntry =>
      { s with activeJobIDs := s.activeJobIDs.filter (fun x => x ≠ jobId) }
  | RetireAction.cleanupWorkDir =>
      { s with jobDirs := s.jobDirs.filter (fun x => x ≠ jobId) }
  | RetireAction.evalShutdown => s

/-- Every state observable during retirement: before it, between any two of
its steps, and after it (a racing `GetStatus` can read any of these). -/
def retirementStates (jobId : String) (s : WorkerState) : List WorkerState :=
  retirementSequence.scanl (applyRetireAction jobId) s

/-- The state after the whole retirement block has run. -/
def retire (jobId : String) (s : WorkerState) : WorkerState :=
  retirementSequence.foldl (applyRetireAction jobId) s

/-! ### Master file resolution for directory upload
(src/internal/worker/uploader/s3.go, `findMasterFile`, lines 295-313) -/

/-- Checks that the second list starts with the first (character lists). -/
def leadMatch : List Char → List Char → Bool
  | [], _ => true
  | _ :: _, [] => false
  | p :: ps, c :: cs => p = c && leadMatch ps cs

/-- `strings.HasSuffix(s, suffix)` on character lists. -/
def hasSuffix (s suffix : List Char) : Bool :=
  leadMatch suffix.reverse s.reverse

/-- The suffix "master.m3u8". -/
def masterName : List Char := "master.m3u8".toList

/-- The suffix "playlist.m3u8". -/
def playlistName : List Char := "playlist.m3u8".toList

/-- The suffix "manifest.mpd". -/
def manifestName : List Char := "manifest.mpd".toList

/-- The two non-returning branches of the `findMasterFile` loop body
(s3.go lines 301-306), in source order: record `f` as the candidate when it
ends in playlist.m3u8 and no candidate is recorded yet, then likewise for
manifest.mpd. -/
def updateMasterFile (masterFile f : List Char) : List Char :=
  let m1 := if hasSuffix f playlistName && masterFile.isEmpty then f else masterFile
  if hasSuffix f manifestName && m1.isEmpty then f else m1

/-- The loop of `findMasterFile` (s3.go lines 297-307): a file ending in
master.m3u8 returns immediately; otherwise the candidate accumulator is
updated. After the loop an empty accumulator is the
master-playlist-not-found error (modelled as `none`). -/
def findMasterFileLoop (masterFile : List Char) :
    List (List Char) → Option (List Char)
  | [] => if masterFile.isEmpty then none else some masterFile
  | f :: rest =>
    if hasSuffix f masterName then some f
    else findMasterFileLoop (updateMasterFile masterFile f) rest

/-- `findMasterFile(files)` (s3.go lines 295-313). -/
def findMasterFile (files : List (List Char)) : Option (List Char) :=
  findMasterFileLoop [] files

/-- The selection asserted by the specification sentence of claim C4,
written from the spec's words: fixed preference order
master.m3u8 > playlist.m3u8 > manifest.mpd regardless of list order. -/
def specMasterFile (files : List (List Char)) : Option (List Char) :=
  match files.find? (fun f => hasSuffix f masterName) with
  | some f => some f
  | none =>
    match files.find? (fun f => hasSuffix f playlistName) with
    | some f => some f
    | none => files.find? (fun f => hasSuffix f manifestName)

/-- The selection the source actually computes, in closed form:
master.m3u8 wins regardless of order; otherwise the first file in LIST
order ending in playlist.m3u8 or manifest.mpd. -/
def orderMasterFile (files : List (List Char)) : Option (List Char) :=
  match files.find? (fun f => hasSuffix f masterName) with
  | some f => some f
  | none =>
    files.find? (fun f => hasSuffix f playlistName || hasSuffix f manifestName)

/-! ### Validator result bookkeeping and the existence check
(src/unnamed/part_009: `ValidationResult`, `addError`, `addWarning`,
`Validate` step 1, `validateFileExists`) -/

/-- A coded validation error (part_009 lines 255-260; `Details` unused). -/
structure ValidationError where
  code : String
  message : String
  field : String
  deriving DecidableEq, Repr

/-- A coded validation warning (part_009 lines 263-267). -/
structure ValidationWarning where
  code : String
  message : String
  field : String
  deriving DecidableEq, Repr

/-- The mutable validation result (part_009 lines 246-252, the fields the
claims are about). -/
structure ValidationResult where
  valid : Bool
  errors : List ValidationError
  warnings : List ValidationWarning
  deriving DecidableEq, Repr

/-- `addError` (part_009 lines 614-621): records the error and unsets
`Valid`. -/
def ValidationResult.addError (r : ValidationResult)
    (code message field : String) : ValidationResult :=
  { r with valid := false,
           errors := r.errors ++ [{ code := code, message := message, field := field }] }

/-- `addWarning` (part_009 lines 624-630): records the warning only. -/
def ValidationResult.addWarning (r : ValidationResult)
    (code message field : String) : ValidationResult :=
  { r with warnings := r.warnings ++ [{ code := code, message := message, field := field }] }

/-- The result `Validate` starts from (part_009 lines 346-348). -/
def initialValidationResult : ValidationResult :=
  { valid := true, errors := [], warnings := [] }

/-- One mutation of the result: `addError` or `addWarning`. -/
inductive ResultOp where
  | err (code message field : String)
  | warn (code message field : String)
  deriving DecidableEq, Repr

/-- Apply one result mutation. -/
def applyResultOp (r : ValidationResult) : ResultOp → ValidationResult
  | ResultOp.err c m f => r.addError c m f
  | ResultOp.warn c m f => r.addWarning c m f

/-- Apply a sequence of result mutations in order. -/
def applyResultOps (r : ValidationResult) (ops : List ResultOp) : ValidationResult :=
  ops.foldl applyResultOp r

/-- What `os.Stat`/`os.ReadDir` observe about the output path. -/
inductive PathInfo where
  | missing
  | statError (err : String)
  | file (size : Nat)
  | dir (entries : List String)
  | dirUnreadable (err : String)
  deriving DecidableEq, Repr

/-- `validateFileExists` (part_009 lines 420-446): missing path, stat
failure, empty regular file and empty directory each return an error (with
distinct messages); otherwise nil. -/
def validateFileExists (path : String) : PathInfo → Option String
  | PathInfo.missing => some ("output file does not exist: " ++ path)
  | PathInfo.statError err => some ("failed to stat output file: " ++ err)
  | PathInfo.dirUnreadable err => some ("failed to read output directory: " ++ err)
  | PathInfo.dir entries =>
      if entries.length = 0 then some ("output directory is empty: " ++ path)
      else none
  | PathInfo.file size =>
      if size = 0 then some ("output file is empty: " ++ path)
      else none

/-- Step 1 of `Validate` (part_009 lines 372-377): ANY existence-check
failure is recorded via `addError("FILE_NOT_FOUND", err.Error(), "")` and
the result is returned immediately (terminal); `none` means the check
passed and validation continues. -/
def validateExistenceStep (path : String) (info : PathInfo) :
    Option ValidationResult :=
  match validateFileExists path info with
  | some msg => some (initialValidationResult.addError "FILE_NOT_FOUND" msg "")
  | none => none

/-! ### Upload retry helper (src/unnamed/part_004: `Config`,
`DefaultConfig`, `Do`) -/

/-- `retry.Config`. Waits are `time.Duration` (int64 nanoseconds),
modelled as Nat; the float64 multiplier is modelled exactly as a
rational. -/
structure RetryConfig where
  maxAttempts : Nat
  initialWait : Nat
  maxWait : Nat
  multiplier : ℚ
  deriving DecidableEq, Repr

/-- `retry.DefaultConfig` (part_004 lines 268-273): 3 attempts, 1 s initial
wait, 30 s cap, multiplier 2.0. -/
def DefaultConfig : RetryConfig :=
  { maxAttempts := 3, initialWait := 1000000000, maxWait := 30000000000,
    multiplier := 2 }

/-- The wait update of `Do` (part_004 lines 308-311):
`wait = time.Duration(float64(wait) * multiplier)` truncates the product
toward zero, then the cap is applied. -/
def nextWait (wait : Nat) (multiplier : ℚ) (maxWait : Nat) : Nat :=
  if (⌊(wait : ℚ) * multiplier⌋).toNat > maxWait then maxWait
  else (⌊(wait : ℚ) * multiplier⌋).toNat

/-- How a `Do` call ends: the operation succeeded, all attempts failed, or
the context was cancelled between attempts. -/
inductive RetryOutcome where
  | success
  | exhausted
  | cancelled
  deriving DecidableEq, Repr

/-- Observable trace of a `Do` call: its outcome, how many times the
operation was invoked, and the waits actually slept between attempts. -/
structure RetryTrace where
  outcome : RetryOutcome
  attempts : Nat
  waits : List Nat
  deriving DecidableEq, Repr

/-- The loop of `retry.Do` (part_004 lines 280-312), with the operation as
an oracle from attempt number to success, and the context as an oracle
telling whether `ctx.Done()` fires in the select after a given failed
attempt. `remaining` counts the attempts still allowed
(`maxAttempts - attempt + 1`); the `remaining = 0` test inside the body is
the `attempt == config.MaxAttempts` break. -/
def doRetryLoop (fn cancelledAfter : Nat → Bool) (maxWait : Nat)
    (multiplier : ℚ) : Nat → Nat → Nat → RetryTrace
  | _, _, 0 => { outcome := RetryOutcome.exhausted, attempts := 0, waits := [] }
  | attempt, wait, remaining + 1 =>
    if fn attempt then
      { outcome := RetryOutcome.success, attempts := 1, waits := [] }
    else if remaining = 0 then
      { outcome := RetryOutcome.exhausted, attempts := 1, waits := [] }
    else if cancelledAfter attempt then
      { outcome := RetryOutcome.cancelled, attempts := 1, waits := [] }
    else
      { outcome := (doRetryLoop fn cancelledAfter maxWait multiplier
          (attempt + 1) (nextWait wait multiplier maxWait) remaining).outcome,
        attempts := (doRetryLoop fn cancelledAfter maxWait multiplier
          (attempt + 1) (nextWait wait multiplier maxWait) remaining).attempts + 1,
        waits := wait :: (doRetryLoop fn cancelledAfter maxWait multiplier
          (attempt + 1) (nextWait wait multiplier maxWait) remaining).waits }

/-- `retry.Do(ctx, config, fn)` (part_004 lines 276-315). -/
def doRetry (cfg : RetryConfig) (fn cancelledAfter : Nat → Bool) : RetryTrace :=
  doRetryLoop fn cancelledAfter cfg.maxWait cfg.multiplier 1 cfg.initialWait
    cfg.maxAttempts

/-! ### Dispatcher authentication middleware
(src/internal/controlplane/auth/middleware.go, `APIKeyMiddleware`) -/

/-- An incoming request as the middleware sees it: URL path and the
Authorization header (the empty list models an absent header, as
`c.GetHeader` returns ""). -/
structure HttpRequest where
  path : String
  authHeader : List Char
  deriving DecidableEq, Repr

/-- What the middleware does with a request: pass it through (`c.Next`) or
abort with HTTP 401 and an error message. -/
inductive AuthDecision where
  | pass
  | reject401 (msg : String)
  deriving DecidableEq, Repr

/-- The literal "Bearer". -/
def bearerLit : List Char := "Bearer".toList

/-- `strings.SplitN(s, " ", 2)`: `none` when `s` has no space (one part);
otherwise the part before the first space and everything after it. -/
def splitFirstSpace : List Char → Option (List Char × List Char)
  | [] => none
  | c :: cs =>
    if c = ' ' then some ([], cs)
    else
      match splitFirstSpace cs with
      | none => none
      | some (a, b) => some (c :: a, b)

/-- `APIKeyMiddleware` (middleware.go lines 14-70): with no configured key
everything passes; `/health` and `/metrics` pass without credentials; a
missing header, a header not splitting into exactly two parts with scheme
"Bearer", or a token differing from the key are rejected with 401; an
exact token match passes. -/
def apiKeyMiddleware (apiKey : List Char) (req : HttpRequest) : AuthDecision :=
  if apiKey = [] then AuthDecision.pass
  else if req.path = "/health" ∨ req.path = "/metrics" then AuthDecision.pass
  else if req.authHeader = [] then
    AuthDecision.reject401 "missing authorization header"
  else
    match splitFirstSpace req.authHeader with
    | none => AuthDecision.reject401 "invalid authorization header format"
    | some (scheme, token) =>
      if scheme ≠ bearerLit then
        AuthDecision.reject401 "invalid authorization header format"
      else if token ≠ apiKey then
        AuthDecision.reject401 "invalid api key"
      else AuthDecision.pass

end FluxEncoder

namespace FluxEncoder

theorem selectScan_all_rejected (b : Balancer) (probe : Nat → ProbeResult)
    (startIdx : Nat) (hall : ∀ i, probeRejected (probe i)) :
    ∀ l : List Nat, selectScan b probe startIdx l =
      (SelectOutcome.noAvailableWorkers, b) := by
  intro l
  induction l with
  | nil => rfl
  | cons i rest ih =>
    unfold selectScan
    have h := hall ((startIdx + i) % b.workers.length)
    cases hp : probe ((startIdx + i) % b.workers.length) with
    | failure => simpa using ih
    | success st =>
      rw [hp] at h
      simp only [probeRejected] at h
      simp only [if_neg h]
      exact ih

theorem selectScan_selected (b : Balancer) (probe : Nat → ProbeResult)
    (startIdx : Nat) (hn : b.workers.length ≠ 0) :
    ∀ (l : List Nat) (w : String) (idx : Nat) (b' : Balancer),
      selectScan b probe startIdx l = (SelectOutcome.selected w idx, b') →
      b'.lastWorkerIndex = (idx : Int) ∧ b.workers.get? idx = some w ∧
        b'.workers = b.workers := by
  intro l
  induction l with
  | nil => intro w idx b' h; simp [selectScan] at h
  | cons i rest ih =>
    intro w idx b' h
    unfold selectScan at h
    cases hp : probe ((startIdx + i) % b.workers.length) with
    | failure =>
      rw [hp] at h
      exact ih w idx b' h
    | success st =>
      rw [hp] at h
      by_cases hc : st.currentJobs < st.maxConcurrentJobs
      · simp only [if_pos hc, Prod.mk.injEq] at h
        obtain ⟨h1, h2⟩ := h
        cases h1
        subst h2
        have hlt : (startIdx + i) % b.workers.length < b.workers.length :=
          Nat.mod_lt _ (Nat.pos_of_ne_zero hn)
        refine ⟨rfl, ?_, rfl⟩
        rw [List.get?_eq_get hlt, List.getD_eq_getElem _ _ hlt]
        simp [List.get_eq_getElem]
      · simp only [if_neg hc] at h
        exact ih w idx b' h

theorem selectScan_not_panic (b : Balancer) (probe : Nat → ProbeResult)
    (startIdx : Nat) :
    ∀ l : List Nat, (selectScan b probe startIdx l).1 ≠
      SelectOutcome.panicDivZero := by
  intro l
  induction l with
  | nil => simp [selectScan]
  | cons i rest ih =>
    unfold selectScan
    cases hp : probe ((startIdx + i) % b.workers.length) with
    | failure => simpa using ih
    | success st =>
      by_cases hc : st.currentJobs < st.maxConcurrentJobs
      · simp [if_pos hc]
      · simpa [if_neg hc] using ih

theorem selectScan_no_workers_unchanged (b : Balancer)
    (probe : Nat → ProbeResult) (startIdx : Nat) :
    ∀ l : List Nat,
      (selectScan b probe startIdx l).1 = SelectOutcome.noAvailableWorkers →
      (selectScan b probe startIdx l).2 = b := by
  intro l
  induction l with
  | nil => intro _; rfl
  | cons i rest ih =>
    intro h
    unfold selectScan at h ⊢
    cases hp : probe ((startIdx + i) % b.workers.length) with
    | failure =>
      rw [hp] at h
      exact ih h
    | success st =>
      rw [hp] at h
      by_cases hc : st.currentJobs < st.maxConcurrentJobs
      · simp [if_pos hc] at h
      · simp only [if_neg hc] at h ⊢
        exact ih h

/-- Claim C3 counterexample: with an empty worker list, `SelectWorker` does
not return the no-available-workers error: it panics with an integer
division by zero at the `(lastWorkerIndex + 1) % len(workers)` computation
(balancer.go line 38), as the repository's own test
`TestWorkerリストが空の場合のエラー処理` expects. -/
theorem selectWorker_empty_list_panics :
    (selectWorker (Balancer.new []) (fun _ => ProbeResult.failure)).1 =
      SelectOutcome.panicDivZero ∧
    SelectOutcome.panicDivZero ≠ SelectOutcome.noAvailableWorkers := by
  constructor
  · rfl
  · intro h; cases h

/-- Claim C3 (amended): with at least one configured worker, `SelectWorker`
never panics, and when every candidate is probed and rejected it returns the
no-available-workers error; with zero workers the call panics with a
division by zero instead of returning the error. -/
theorem selectWorker_nonempty_no_panic (b : Balancer)
    (probe : Nat → ProbeResult) (h : b.workers ≠ []) :
    (selectWorker b probe).1 ≠ SelectOutcome.panicDivZero ∧
    ((∀ i, probeRejected (probe i)) →
      (selectWorker b probe).1 = SelectOutcome.noAvailableWorkers) := by
  have hn : b.workers.length ≠ 0 := by
    intro hc; exact h (List.length_eq_zero.mp hc)
  constructor
  · unfold selectWorker
    rw [if_neg hn]
    exact selectScan_not_panic b probe _ _
  · intro hall
    unfold selectWorker
    rw [if_neg hn]
    rw [selectScan_all_rejected b probe _ hall]

/-- Witness for the amended claim C3 at a concrete input: a single worker
that is unreachable yields the no-available-workers error (and no panic). -/
theorem selectWorker_nonempty_no_panic_witness :
    (selectWorker (Balancer.new ["worker1:50051"])
        (fun _ => ProbeResult.failure)).1 ≠ SelectOutcome.panicDivZero ∧
    (selectWorker (Balancer.new ["worker1:50051"])
        (fun _ => ProbeResult.failure)).1 = SelectOutcome.noAvailableWorkers := by
  have h := selectWorker_nonempty_no_panic (Balancer.new ["worker1:50051"])
    (fun _ => ProbeResult.failure) (by simp [Balancer.new])
  exact ⟨h.1, h.2 (fun i => by simp [probeRejected])⟩

/-- Claim C6: for a Balancer with at least one configured worker, after a
successful `SelectWorker` call `lastWorkerIndex` equals the index of the
returned worker (and the returned address is the worker at that index);
after an unsuccessful call the whole Balancer state, in particular
`lastWorkerIndex`, is unchanged. -/
theorem selectWorker_cursor (b : Balancer) (probe : Nat → ProbeResult)
    (h : b.workers ≠ []) :
    (∀ w idx, (selectWorker b probe).1 = SelectOutcome.selected w idx →
      (selectWorker b probe).2.lastWorkerIndex = (idx : Int) ∧
        b.workers.get? idx = some w) ∧
    ((selectWorker b probe).1 = SelectOutcome.noAvailableWorkers →
      (selectWorker b probe).2 = b) := by
  have hn : b.workers.length ≠ 0 := by
    intro hc; exact h (List.length_eq_zero.mp hc)
  constructor
  · intro w idx hsel
    unfold selectWorker at hsel ⊢
    rw [if_neg hn] at hsel ⊢
    obtain ⟨h1, h2, _⟩ := selectScan_selected b probe _ hn
      (List.range b.workers.length) w idx _ (Prod.ext (by exact hsel) rfl)
    exact ⟨h1, h2⟩
  · intro hsel
    unfold selectWorker at hsel ⊢
    rw [if_neg hn] at hsel ⊢
    exact selectScan_no_workers_unchanged b probe _ _ hsel

/-- Witness for claim C6 at a concrete input: two workers, the first idle;
the call selects index 0 and the cursor is set to 0. -/
theorem selectWorker_cursor_witness :
    (selectWorker (Balancer.new ["a:1", "b:2"])
        (fun _ => ProbeResult.success ⟨0, 1⟩)).2.lastWorkerIndex = (0 : Int) ∧
    (Balancer.new ["a:1", "b:2"]).workers.get? 0 = some "a:1" := by
  have h := (selectWorker_cursor (Balancer.new ["a:1", "b:2"])
    (fun _ => ProbeResult.success ⟨0, 1⟩) (by simp [Balancer.new])).1
    "a:1" 0 (by rfl)
  exact h

end FluxEncoder

namespace FluxEncoder

theorem progressEvents_append (a b : List CallbackEvent) :
    progressEvents (a ++ b) = progressEvents a ++ progressEvents b := by
  simp [progressEvents]

theorem progressEvents_frameEvents (line : List Char) :
    progressEvents (frameEvents line) = [] := by
  unfold frameEvents
  cases findNumberAfterSpaces frameLit line <;> simp [progressEvents]

theorem progressEvents_cons_progress (p : ℚ) (l : List CallbackEvent) :
    progressEvents (CallbackEvent.progressMsg p :: l) = p :: progressEvents l := by
  simp [progressEvents]

theorem readProgressLoop_events (duration : ℚ) :
    ∀ (lines : List (List Char)) (last : ℚ),
      progressEvents (readProgressLoop duration lines last).1 =
        lines.filterMap (parseProgress duration) := by
  intro lines
  induction lines with
  | nil => intro last; simp [readProgressLoop, progressEvents]
  | cons line rest ih =>
    intro last
    cases hp : parseProgress duration line with
    | none =>
      simp [readProgressLoop, List.filterMap_cons, hp, progressEvents_append,
        progressEvents_frameEvents, ih last]
    | some p =>
      by_cases hc : p - last ≥ 10 ∨ p ≥ 100
      · simp [readProgressLoop, hp, if_pos hc, progressEvents_append,
          progressEvents_frameEvents, progressEvents_cons_progress,
          List.filterMap_cons, ih p]
      · simp [readProgressLoop, hp, if_neg hc, progressEvents_append,
          progressEvents_frameEvents, progressEvents_cons_progress,
          List.filterMap_cons, ih last]

theorem readProgressLoop_logs_throttled (duration : ℚ) :
    ∀ (lines : List (List Char)) (last : ℚ),
      throttleFrom last (readProgressLoop duration lines last).2 = true := by
  intro lines
  induction lines with
  | nil => intro last; simp [readProgressLoop, throttleFrom]
  | cons line rest ih =>
    intro last
    unfold readProgressLoop
    cases hp : parseProgress duration line with
    | none => simpa using ih last
    | some p =>
      by_cases hc : p - last ≥ 10 ∨ p ≥ 100
      · simp only [if_pos hc, throttleFrom, Bool.and_eq_true]
        refine ⟨?_, ih p⟩
        rcases hc with h | h <;> simp [h]
      · simp only [if_neg hc]
        simpa using ih last

theorem throttleOk_of_throttleFrom :
    ∀ (ps : List ℚ) (last : ℚ), throttleFrom last ps = true →
      throttleOk ps = true := by
  intro ps
  induction ps with
  | nil => intro last _; rfl
  | cons p rest ih =>
    intro last h
    cases rest with
    | nil => rfl
    | cons q rest2 =>
      simp only [throttleFrom, Bool.and_eq_true] at h
      obtain ⟨_, hqp, hq⟩ := h
      have hok := ih p (by simp only [throttleFrom, Bool.and_eq_true]; exact ⟨hqp, hq⟩)
      simp only [throttleOk, Bool.and_eq_true]
      exact ⟨hqp, hok⟩

/-- Claim C1 counterexample: the encode-stage progress callback is NOT
throttled. On the stderr line sequence
`[out_time_ms=1000000, out_time_ms=2000000]` with probed duration 100 s,
`readFFmpegProgress` delivers PROCESSING percentage events 1% and then 2%
to the callback — an increment of 1 point, below 10, with 2 < 100 — so a
percentage event is emitted for a smaller increment. (The
10-point-or-100 condition in the source gates only the `logger.Info`
record, encoder.go line 553.) -/
theorem readFFmpegProgress_not_throttled :
    progressEvents (readFFmpegProgress 100
        ["out_time_ms=1000000".toList, "out_time_ms=2000000".toList]).1 =
      [1, 2] ∧
    throttleOk [1, 2] = false ∧
    (2 : ℚ) - 1 < 10 ∧ (2 : ℚ) < 100 := by
  refine ⟨?_, by norm_num [throttleOk], by norm_num, by norm_num⟩
  have hf1 : findNumberAfter outTimeLit ("out_time_ms=1000000".toList) =
      some 1000000 := by decide
  have hf2 : findNumberAfter outTimeLit ("out_time_ms=2000000".toList) =
      some 2000000 := by decide
  have hp1 : parseProgress 100 ("out_time_ms=1000000".toList) = some 1 := by
    unfold parseProgress
    rw [hf1]
    norm_num
  have hp2 : parseProgress 100 ("out_time_ms=2000000".toList) = some 2 := by
    unfold parseProgress
    rw [hf2]
    norm_num
  simp only [readFFmpegProgress]
  rw [readProgressLoop_events]
  rw [List.filterMap_cons, hp1, List.filterMap_cons, hp2, List.filterMap_nil]

/-- Claim C1 (amended): during the encode stage the progress callback
receives a PROCESSING percentage event for EVERY stderr line carrying a
parsable `out_time_ms` token (against a positive probed duration), with no
increment threshold; the at-most-once-per-10-percentage-points-or-at-100
throttle applies only to the progress log records kept via
`lastLoggedProgress`. -/
theorem readFFmpegProgress_callback_each_line_logs_throttled
    (duration : ℚ) (lines : List (List Char)) :
    progressEvents (readFFmpegProgress duration lines).1 =
      lines.filterMap (parseProgress duration) ∧
    throttleOk (readFFmpegProgress duration lines).2 = true :=
  ⟨readProgressLoop_events duration lines (-10),
   throttleOk_of_throttleFrom _ _ (readProgressLoop_logs_throttled duration lines (-10))⟩

theorem parseProgress_le (duration : ℚ) (line : List Char) (p : ℚ)
    (h : parseProgress duration line = some p) : p ≤ 100 := by
  unfold parseProgress at h
  by_cases hd : duration ≤ 0
  · rw [if_pos hd] at h; cases h
  · rw [if_neg hd] at h
    cases hf : findNumberAfter outTimeLit line with
    | none => rw [hf] at h; cases h
    | some n =>
      rw [hf] at h
      have h2 : (if ((n : ℚ) / 1000000) / duration * 100 > 100 then some (100 : ℚ)
          else some (((n : ℚ) / 1000000) / duration * 100)) = some p := h
      by_cases hc : ((n : ℚ) / 1000000) / duration * 100 > 100
      · rw [if_pos hc] at h2
        cases h2
        exact le_refl _
      · rw [if_neg hc] at h2
        cases h2
        exact le_of_not_lt hc

theorem readProgressLoop_events_le (duration : ℚ) :
    ∀ (lines : List (List Char)) (last : ℚ) (e : CallbackEvent),
      e ∈ (readProgressLoop duration lines last).1 →
        callbackProgress e ≤ 100 := by
  intro lines
  induction lines with
  | nil => intro last e he; simp [readProgressLoop] at he
  | cons line rest ih =>
    intro last e he
    have hframe : ∀ e2 : CallbackEvent, e2 ∈ frameEvents line →
        callbackProgress e2 ≤ 100 := by
      intro e2 he2
      unfold frameEvents at he2
      cases hn : findNumberAfterSpaces frameLit line with
      | none => rw [hn] at he2; simp at he2
      | some n =>
        rw [hn] at he2
        simp at he2
        subst he2
        norm_num [callbackProgress]
    cases hp : parseProgress duration line with
    | none =>
      simp only [readProgressLoop, hp, List.mem_append] at he
      rcases he with h | h
      · exact hframe e h
      · exact ih last e h
    | some p =>
      have hple : p ≤ 100 := parseProgress_le duration line p hp
      simp only [readProgressLoop, hp] at he
      by_cases hc : p - last ≥ 10 ∨ p ≥ 100
      · rw [if_pos hc] at he
        simp only [List.mem_append, List.mem_cons] at he
        rcases he with h | h | h
        · exact hframe e h
        · subst h; simpa [callbackProgress] using hple
        · exact ih p e h
      · rw [if_neg hc] at he
        simp only [List.mem_append, List.mem_cons] at he
        rcases he with h | h | h
        · exact hframe e h
        · subst h; simpa [callbackProgress] using hple
        · exact ih last e h

/-- Claim C8: every ProgressEvent sent on a job's stream by the Executor —
the QUEUED and PROCESSING sends, every percentage event computed from
`out_time_ms` against the probed duration, the UPLOADING send, and the
terminal COMPLETED or FAILED send — carries a progress value that never
exceeds 100, for every input duration and every stderr line content. -/
theorem submitJob_progress_le_100 (current maxConcurrent : Int) (duration : ℚ)
    (stderrLines : List (List Char)) (encodeRes : EncodeOutcome)
    (statRes : StatOutcome) (uploadRes : UploadOutcome) (ev : JobProgress)
    (hev : ev ∈ submitJobEvents current maxConcurrent duration stderrLines
      encodeRes statRes uploadRes) :
    ev.progress ≤ 100 := by
  unfold submitJobEvents at hev
  by_cases hcap : current ≥ maxConcurrent
  · rw [if_pos hcap] at hev
    simp at hev
  · rw [if_neg hcap] at hev
    simp only [List.mem_cons, List.mem_append] at hev
    rcases hev with h | h | h | h
    · subst h; norm_num
    · subst h; norm_num
    · unfold encodeCallbackEvents at h
      simp only [List.mem_map] at h
      obtain ⟨e, he, hmap⟩ := h
      subst hmap
      exact readProgressLoop_events_le duration stderrLines (-10) e he
    · cases encodeRes <;> cases statRes <;> cases uploadRes <;> simp at h <;>
        first
          | (subst h; norm_num)
          | (rcases h with h1 | h1 <;> subst h1 <;> norm_num)

/-- Witness for claim C8 at a concrete input: a capacity-admitted job with
no stderr lines that completes; its QUEUED event carries progress 0 ≤ 100. -/
theorem submitJob_progress_le_100_witness :
    ({ status := JobStatus.queued, progress := 0 } : JobProgress).progress ≤ 100 :=
  submitJob_progress_le_100 0 1 0 [] EncodeOutcome.ok StatOutcome.isFile
    UploadOutcome.ok { status := JobStatus.queued, progress := 0 }
    (by simp [submitJobEvents])

end FluxEncoder

namespace FluxEncoder

/-- Claim C2 counterexample: the retirement sequence decrements
`activeJobs` FIRST (its head) and removes the working directory only two
steps later; starting from one active job whose directory exists, the state
right after the first retirement step has counter 0 while the job's
working directory still exists — exactly the observation the claim says is
impossible. -/
theorem retirement_decrement_precedes_cleanup :
    retirementSequence.head? = some RetireAction.decrementCounter ∧
    retirementSequence.get? 2 = some RetireAction.cleanupWorkDir ∧
    (retirementStates "job-1"
        { activeJobs := 1, activeJobIDs := ["job-1"], jobDirs := ["job-1"] }).get? 1 =
      some { activeJobs := 0, activeJobIDs := ["job-1"], jobDirs := ["job-1"] } := by
  refine ⟨rfl, rfl, ?_⟩
  decide

/-- Claim C2 (amended): on every Pipeline exit the retirement sequence
decrements `ActiveJobCounter` BEFORE removing the job's working directory:
right after the first retirement step the counter is already decremented
while the directory still exists (so a racing status probe can read zero
with stale job files present), and by the end of retirement the directory
is removed and the counter is decremented. -/
theorem retirement_counter_then_cleanup (s : WorkerState) (jobId : String)
    (h : jobId ∈ s.jobDirs) :
    (retirementStates jobId s).get? 1 =
      some { s with activeJobs := s.activeJobs - 1 } ∧
    jobId ∈ ({ s with activeJobs := s.activeJobs - 1 } : WorkerState).jobDirs ∧
    (retire jobId s).activeJobs = s.activeJobs - 1 ∧
    jobId ∉ (retire jobId s).jobDirs := by
  refine ⟨?_, h, ?_, ?_⟩
  · simp [retirementStates, retirementSequence, List.scanl, applyRetireAction]
  · simp [retire, retirementSequence, applyRetireAction]
  · simp [retire, retirementSequence, applyRetireAction, List.mem_filter]

/-- Witness for the amended claim C2 at a concrete input. -/
theorem retirement_counter_then_cleanup_witness :
    (retirementStates "j7"
        { activeJobs := 1, activeJobIDs := ["j7"], jobDirs := ["j7"] }).get? 1 =
      some { activeJobs := 0, activeJobIDs := ["j7"], jobDirs := ["j7"] } ∧
    (retire "j7" { activeJobs := 1, activeJobIDs := ["j7"], jobDirs := ["j7"] }).activeJobs = 0 ∧
    "j7" ∉ (retire "j7" { activeJobs := 1, activeJobIDs := ["j7"], jobDirs := ["j7"] }).jobDirs := by
  have h := retirement_counter_then_cleanup
    { activeJobs := 1, activeJobIDs := ["j7"], jobDirs := ["j7"] } "j7"
    (by simp)
  exact ⟨h.1, h.2.2.1, h.2.2.2⟩

/-- Claim C5: the code evaluated at the claim's inputs. A missing output
path yields a terminal result with code FILE_NOT_FOUND — but an existing
zero-size file and an existing empty directory ALSO yield code
FILE_NOT_FOUND (only the message differs); the code FILE_EMPTY promised by
the claim and by docs/VALIDATION_SPEC_ja.md is never produced. -/
theorem validateExistence_always_FILE_NOT_FOUND :
    validateExistenceStep "out.mp4" PathInfo.missing =
      some { valid := false,
             errors := [{ code := "FILE_NOT_FOUND",
                          message := "output file does not exist: out.mp4",
                          field := "" }],
             warnings := [] } ∧
    validateExistenceStep "out.mp4" (PathInfo.file 0) =
      some { valid := false,
             errors := [{ code := "FILE_NOT_FOUND",
                          message := "output file is empty: out.mp4",
                          field := "" }],
             warnings := [] } ∧
    validateExistenceStep "outdir" (PathInfo.dir []) =
      some { valid := false,
             errors := [{ code := "FILE_NOT_FOUND",
                          message := "output directory is empty: outdir",
                          field := "" }],
             warnings := [] } ∧
    "FILE_NOT_FOUND" ≠ "FILE_EMPTY" := by
  refine ⟨?_, ?_, ?_, ?_⟩ <;> decide

theorem applyResultOp_invariant (r : ValidationResult) (op : ResultOp)
    (h : r.valid = true ↔ r.errors = []) :
    (applyResultOp r op).valid = true ↔ (applyResultOp r op).errors = [] := by
  cases op with
  | err c m f =>
    simp [applyResultOp, ValidationResult.addError]
  | warn c m f =>
    simpa [applyResultOp, ValidationResult.addWarning] using h

theorem applyResultOps_invariant (ops : List ResultOp) :
    ∀ r : ValidationResult, (r.valid = true ↔ r.errors = []) →
      ((applyResultOps r ops).valid = true ↔ (applyResultOps r ops).errors = []) := by
  induction ops with
  | nil => intro r h; exact h
  | cons op rest ih =>
    intro r h
    simpa [applyResultOps, List.foldl_cons] using
      ih (applyResultOp r op) (applyResultOp_invariant r op h)

/-- Claim C7: for every interleaving of `addError` and `addWarning` starting
from the initial result (valid, no errors, no warnings), the `valid` flag is
true exactly when the errors list is empty; and `addWarning` never changes
the `valid` flag of any result. -/
theorem validationResult_valid_iff_no_errors :
    (∀ ops : List ResultOp,
      ((applyResultOps initialValidationResult ops).valid = true ↔
        (applyResultOps initialValidationResult ops).errors = [])) ∧
    (∀ (r : ValidationResult) (c m f : String),
      (r.addWarning c m f).valid = r.valid) := by
  constructor
  · intro ops
    exact applyResultOps_invariant ops initialValidationResult
      (by simp [initialValidationResult])
  · intro r c m f
    simp [ValidationResult.addWarning]

end FluxEncoder

namespace FluxEncoder

theorem hasSuffix_ne_nil (s suffix : List Char) (hsuf : suffix ≠ [])
    (h : hasSuffix s suffix = true) : s ≠ [] := by
  intro hnil
  subst hnil
  unfold hasSuffix at h
  rw [List.reverse_nil] at h
  cases hs : suffix.reverse with
  | nil => exact hsuf (by simpa using congrArg List.reverse hs)
  | cons q qs => rw [hs] at h; simp [leadMatch] at h

theorem updateMasterFile_acc_ne (acc f : List Char)
    (hacc : acc.isEmpty = false) : updateMasterFile acc f = acc := by
  unfold updateMasterFile
  simp [hacc]

theorem findMasterFileLoop_acc_ne (acc : List Char) (hacc : acc ≠ []) :
    ∀ files, findMasterFileLoop acc files =
      match files.find? (fun f => hasSuffix f masterName) with
      | some f => some f
      | none => some acc := by
  have hacc2 : acc.isEmpty = false := by
    cases acc with
    | nil => exact absurd rfl hacc
    | cons a as => rfl
  intro files
  induction files with
  | nil => simp [findMasterFileLoop, hacc2, List.find?]
  | cons f rest ih =>
    cases hm : hasSuffix f masterName with
    | true => simp [findMasterFileLoop, hm, List.find?]
    | false =>
      simp only [findMasterFileLoop, hm, Bool.false_eq_true, if_false,
        updateMasterFile_acc_ne acc f hacc2, List.find?, ih]

theorem findMasterFileLoop_empty :
    ∀ files, findMasterFileLoop [] files = orderMasterFile files := by
  intro files
  induction files with
  | nil => rfl
  | cons f rest ih =>
    cases hm : hasSuffix f masterName with
    | true => simp [findMasterFileLoop, orderMasterFile, hm, List.find?]
    | false =>
      cases hp : hasSuffix f playlistName with
      | true =>
        have hf : f ≠ [] := hasSuffix_ne_nil f playlistName (by decide) hp
        have hfe : f.isEmpty = false := by
          cases f with
          | nil => exact absurd rfl hf
          | cons a as => rfl
        have hupd : updateMasterFile [] f = f := by
          unfold updateMasterFile
          simp [hp, hfe]
        rw [show findMasterFileLoop [] (f :: rest) =
            findMasterFileLoop (updateMasterFile [] f) rest from by
          simp [findMasterFileLoop, hm]]
        rw [hupd, findMasterFileLoop_acc_ne f hf rest]
        unfold orderMasterFile
        cases hfind : rest.find? (fun g => hasSuffix g masterName) with
        | some g => simp [List.find?, hm, hfind]
        | none => simp [List.find?, hm, hfind, hp]
      | false =>
        cases hmf : hasSuffix f manifestName with
        | true =>
          have hf : f ≠ [] := hasSuffix_ne_nil f manifestName (by decide) hmf
          have hupd : updateMasterFile [] f = f := by
            unfold updateMasterFile
            simp [hp, hmf]
          rw [show findMasterFileLoop [] (f :: rest) =
              findMasterFileLoop (updateMasterFile [] f) rest from by
            simp [findMasterFileLoop, hm]]
          rw [hupd, findMasterFileLoop_acc_ne f hf rest]
          unfold orderMasterFile
          cases hfind : rest.find? (fun g => hasSuffix g masterName) with
          | some g => simp [List.find?, hm, hfind]
          | none => simp [List.find?, hm, hfind, hp, hmf]
        | false =>
          have hupd : updateMasterFile [] f = [] := by
            unfold updateMasterFile
            simp [hp, hmf]
          rw [show findMasterFileLoop [] (f :: rest) =
              findMasterFileLoop (updateMasterFile [] f) rest from by
            simp [findMasterFileLoop, hm]]
          rw [hupd, ih]
          unfold orderMasterFile
          simp [List.find?, hm, hp, hmf]

/-- Claim C4 counterexample: master-URL resolution is NOT by the fixed
preference order playlist.m3u8 > manifest.mpd regardless of list order.
On the uploaded file list `[manifest.mpd, playlist.m3u8]` the source
returns `manifest.mpd` (the first candidate in list order), while the
claimed preference order — formalized from the spec's words as
`specMasterFile` — selects `playlist.m3u8`. -/
theorem findMasterFile_order_dependent :
    findMasterFile ["manifest.mpd".toList, "playlist.m3u8".toList] =
      some ("manifest.mpd".toList) ∧
    specMasterFile ["manifest.mpd".toList, "playlist.m3u8".toList] =
      some ("playlist.m3u8".toList) ∧
    "manifest.mpd".toList ≠ "playlist.m3u8".toList := by
  refine ⟨by decide, by decide, by decide⟩

/-- Claim C4 (amended): a file ending in master.m3u8 is selected in
preference to everything else regardless of list order; when none is
present, the FIRST file in list order ending in playlist.m3u8 or
manifest.mpd is selected (between those two names the list order, not a
fixed preference, decides); an error is returned exactly when no uploaded
file ends in any of the three names. -/
theorem findMasterFile_characterization (files : List (List Char)) :
    findMasterFile files = orderMasterFile files ∧
    (findMasterFile files = none ↔
      ∀ f ∈ files, hasSuffix f masterName = false ∧
        hasSuffix f playlistName = false ∧ hasSuffix f manifestName = false) := by
  refine ⟨findMasterFileLoop_empty files, ?_⟩
  rw [show findMasterFile files = orderMasterFile files from
    findMasterFileLoop_empty files]
  unfold orderMasterFile
  cases h1 : files.find? (fun f => hasSuffix f masterName) with
  | some g =>
    have hg := List.find?_some h1
    have hmem := List.mem_of_find?_eq_some h1
    simp only []
    constructor
    · intro hnone; cases hnone
    · intro hall
      exact absurd hg (by simp [(hall g hmem).1])
  | none =>
    cases h2 : files.find?
        (fun f => hasSuffix f playlistName || hasSuffix f manifestName) with
    | some g =>
      have hg := List.find?_some h2
      have hmem := List.mem_of_find?_eq_some h2
      simp only []
      constructor
      · intro hnone; cases hnone
      · intro hall
        have h3 := hall g hmem
        rw [h3.2.1, h3.2.2] at hg
        simp at hg
    | none =>
      simp only [List.find?_eq_none] at h1 h2
      simp only [true_iff, eq_self_iff_true]
      intro f hf
      have ha := h1 f hf
      have hb := h2 f hf
      simp at ha hb
      exact ⟨ha, hb.1, hb.2⟩

end FluxEncoder

namespace FluxEncoder

theorem doRetryLoop_succ_eq (fn c : Nat → Bool) (M : Nat) (m : ℚ)
    (a w r : Nat) :
    doRetryLoop fn c M m a w (r + 1) =
      if fn a then { outcome := RetryOutcome.success, attempts := 1, waits := [] }
      else if r = 0 then
        { outcome := RetryOutcome.exhausted, attempts := 1, waits := [] }
      else if c a then
        { outcome := RetryOutcome.cancelled, attempts := 1, waits := [] }
      else
        { outcome := (doRetryLoop fn c M m (a + 1) (nextWait w m M) r).outcome,
          attempts :=
            (doRetryLoop fn c M m (a + 1) (nextWait w m M) r).attempts + 1,
          waits :=
            w :: (doRetryLoop fn c M m (a + 1) (nextWait w m M) r).waits } := rfl

theorem nextWait_default (w : Nat) :
    nextWait w 2 30000000000 = min (2 * w) 30000000000 := by
  unfold nextWait
  have hcast : ((w : ℚ) * 2) = ((2 * w : ℕ) : ℚ) := by push_cast; ring
  rw [hcast, Int.floor_natCast]
  simp only [Int.toNat_natCast]
  by_cases h : 2 * w > 30000000000
  · rw [if_pos h]
    omega
  · rw [if_neg h]
    omega

/-- Claim C9: under the default retry configuration (3 attempts, 1 s
initial wait, 30 s cap, multiplier 2): success on attempt k ≤ 3 returns
success after exactly k invocations; all attempts failing returns an error
after exactly 3 invocations with waits of 1 s then 2 s between them; the
wait update always doubles the wait and caps it at 30 s; and a context
cancellation observed between attempts stops the loop without invoking the
operation again, returning the cancellation error. -/
theorem retry_do_default (fn c : Nat → Bool) :
    (∀ k : Nat, 1 ≤ k → k ≤ 3 →
      (∀ j, 1 ≤ j → j < k → fn j = false) →
      (∀ j, 1 ≤ j → j < k → c j = false) →
      fn k = true →
      (doRetry DefaultConfig fn c).outcome = RetryOutcome.success ∧
        (doRetry DefaultConfig fn c).attempts = k) ∧
    ((∀ j, fn j = false) → (∀ j, c j = false) →
      (doRetry DefaultConfig fn c).outcome = RetryOutcome.exhausted ∧
        (doRetry DefaultConfig fn c).attempts = 3 ∧
        (doRetry DefaultConfig fn c).waits = [1000000000, 2000000000]) ∧
    (∀ w : Nat, nextWait w DefaultConfig.multiplier DefaultConfig.maxWait =
      min (2 * w) 30000000000) ∧
    (∀ j : Nat, 1 ≤ j → j < 3 →
      (∀ i, 1 ≤ i → i ≤ j → fn i = false) →
      (∀ i, 1 ≤ i → i < j → c i = false) →
      c j = true →
      (doRetry DefaultConfig fn c).outcome = RetryOutcome.cancelled ∧
        (doRetry DefaultConfig fn c).attempts = j) := by
  have hw1 : nextWait 1000000000 2 30000000000 = 2000000000 := by
    rw [nextWait_default]
    omega
  refine ⟨?_, ?_, ?_, ?_⟩
  · intro k hk1 hk3 hfail hc hsucc
    have hk : k = 1 ∨ k = 2 ∨ k = 3 := by omega
    rcases hk with rfl | rfl | rfl
    · simp [doRetry, DefaultConfig, doRetryLoop, hsucc]
    · have hf1 := hfail 1 (by norm_num) (by norm_num)
      have hc1 := hc 1 (by norm_num) (by norm_num)
      simp [doRetry, DefaultConfig, doRetryLoop, hf1, hc1, hsucc]
    · have hf1 := hfail 1 (by norm_num) (by norm_num)
      have hf2 := hfail 2 (by norm_num) (by norm_num)
      have hc1 := hc 1 (by norm_num) (by norm_num)
      have hc2 := hc 2 (by norm_num) (by norm_num)
      simp [doRetry, DefaultConfig, doRetryLoop, hf1, hf2, hc1, hc2, hsucc]
  · intro hfn hcn
    simp [doRetry, DefaultConfig, doRetryLoop, hfn 1, hfn 2, hfn 3,
      hcn 1, hcn 2, hw1]
  · intro w
    simpa [DefaultConfig] using nextWait_default w
  · intro j hj1 hj3 hfail hc hcj
    have hj : j = 1 ∨ j = 2 := by omega
    rcases hj with rfl | rfl
    · have hf1 := hfail 1 (by norm_num) (by norm_num)
      simp [doRetry, DefaultConfig, doRetryLoop, hf1, hcj]
    · have hf1 := hfail 1 (by norm_num) (by norm_num)
      have hf2 := hfail 2 (by norm_num) (by norm_num)
      have hc1 := hc 1 (by norm_num) (by norm_num)
      simp [doRetry, DefaultConfig, doRetryLoop, hf1, hf2, hc1, hcj]

/-- Witness for claim C9 at a concrete input: an operation that fails on
attempt 1 and succeeds on attempt 2 with no cancellation: Do succeeds after
exactly 2 invocations. -/
theorem retry_do_default_witness :
    (doRetry DefaultConfig (fun j => decide (j = 2)) (fun _ => false)).outcome =
      RetryOutcome.success ∧
    (doRetry DefaultConfig (fun j => decide (j = 2)) (fun _ => false)).attempts = 2 := by
  exact (retry_do_default (fun j => decide (j = 2)) (fun _ => false)).1 2
    (by norm_num) (by norm_num)
    (by intro j h1 h2
        have hj : j = 1 := by omega
        rw [hj]
        decide)
    (by intro j h1 h2; rfl)
    (by decide)

end FluxEncoder

namespace FluxEncoder

theorem splitFirstSpace_append (a b : List Char) (ha : ' ' ∉ a) :
    splitFirstSpace (a ++ ' ' :: b) = some (a, b) := by
  induction a with
  | nil => simp [splitFirstSpace]
  | cons c cs ih =>
    have hc : ¬ c = ' ' := fun h => ha (by simp [h])
    have hcs : ' ' ∉ cs := fun h => ha (List.mem_cons_of_mem _ h)
    simp [splitFirstSpace, hc, ih hcs]

theorem splitFirstSpace_eq (s : List Char) :
    ∀ a b, splitFirstSpace s = some (a, b) → s = a ++ ' ' :: b := by
  induction s with
  | nil => intro a b h; simp [splitFirstSpace] at h
  | cons c cs ih =>
    intro a b h
    by_cases hc : c = ' '
    · subst hc
      simp [splitFirstSpace] at h
      obtain ⟨h1, h2⟩ := h
      subst h1
      subst h2
      rfl
    · simp only [splitFirstSpace, if_neg hc] at h
      cases hsp : splitFirstSpace cs with
      | none => rw [hsp] at h; cases h
      | some p =>
        obtain ⟨p1, p2⟩ := p
        rw [hsp] at h
        simp at h
        obtain ⟨h1, h2⟩ := h
        subst h1
        subst h2
        rw [ih p1 p2 hsp]
        rfl

/-- Claim C10: with a configured API key, requests to /health and /metrics
pass without credentials; every other request passes exactly when its
Authorization header is literally "Bearer " followed by the configured
key (missing header, malformed header, or token mismatch are rejected
with a 401); with no configured key every request passes. -/
theorem apiKeyMiddleware_auth (apiKey : List Char) (req : HttpRequest) :
    (apiKey = [] → apiKeyMiddleware apiKey req = AuthDecision.pass) ∧
    (req.path = "/health" ∨ req.path = "/metrics" →
      apiKeyMiddleware apiKey req = AuthDecision.pass) ∧
    (apiKey ≠ [] → req.path ≠ "/health" → req.path ≠ "/metrics" →
      (apiKeyMiddleware apiKey req = AuthDecision.pass ↔
        req.authHeader = bearerLit ++ ' ' :: apiKey)) := by
  refine ⟨?_, ?_, ?_⟩
  · intro h
    unfold apiKeyMiddleware
    rw [if_pos h]
  · intro h
    by_cases hk : apiKey = []
    · unfold apiKeyMiddleware
      rw [if_pos hk]
    · unfold apiKeyMiddleware
      rw [if_neg hk, if_pos h]
  · intro hk hp1 hp2
    unfold apiKeyMiddleware
    rw [if_neg hk,
      if_neg (show ¬ (req.path = "/health" ∨ req.path = "/metrics") by
        intro hor
        rcases hor with h | h
        · exact hp1 h
        · exact hp2 h)]
    constructor
    · intro hpass
      by_cases hh : req.authHeader = []
      · rw [if_pos hh] at hpass
        exact absurd hpass (by simp)
      · rw [if_neg hh] at hpass
        cases hsp : splitFirstSpace req.authHeader with
        | none =>
          simp only [hsp] at hpass
          exact absurd hpass (by simp)
        | some p =>
          obtain ⟨scheme, token⟩ := p
          simp only [hsp] at hpass
          by_cases hs : scheme ≠ bearerLit
          · rw [if_pos hs] at hpass
            exact absurd hpass (by simp)
          · rw [if_neg hs] at hpass
            push_neg at hs
            by_cases ht : token ≠ apiKey
            · rw [if_pos ht] at hpass
              exact absurd hpass (by simp)
            · push_neg at ht
              have heq := splitFirstSpace_eq req.authHeader scheme token hsp
              rw [heq, hs, ht]
    · intro hh
      have hne : req.authHeader ≠ [] := by
        rw [hh]; simp [bearerLit]
      rw [if_neg hne]
      have hsp : splitFirstSpace req.authHeader = some (bearerLit, apiKey) := by
        rw [hh]
        exact splitFirstSpace_append bearerLit apiKey (by decide)
      simp only [hsp]
      rw [if_neg (show ¬ bearerLit ≠ bearerLit by simp),
        if_neg (show ¬ apiKey ≠ apiKey by simp)]

/-- Witness for claim C10 at a concrete input: key "k1", a request to
/api/v1/jobs carrying header "Bearer k1" passes. -/
theorem apiKeyMiddleware_auth_witness :
    apiKeyMiddleware ("k1".toList)
      { path := "/api/v1/jobs",
        authHeader := bearerLit ++ ' ' :: "k1".toList } = AuthDecision.pass := by
  exact ((apiKeyMiddleware_auth ("k1".toList)
    { path := "/api/v1/jobs",
      authHeader := bearerLit ++ ' ' :: "k1".toList }).2.2
    (by decide) (by decide) (by decide)).mpr rfl

end FluxEncoder
